import Mathlib

/-!
# Verification of the asound import pipeline and playback engine

Shallow embedding of the core of the `asound` local-music player:

* `chunkArray`, `mapWithConcurrency` (modelled as index-preserving map),
  `yieldToUI` (modelled as a logged event) from `src/lib/importer.ts`;
* `buildFileSignature` from `src/lib/fileAccess.ts`;
* `importFilesChunked` and its helpers (`getTrackSignature`,
  `limitFailures`, `revokeTrackCoverIfBlob`) from `src/store/player.ts`;
* the playback-engine operations `play`/`pause` and the audio `error`
  listener from `src/hooks/useAudioEngine.ts` together with the wake-lock
  module `src/lib/wakeLock.ts`;
* the shuffle-order computation (Fisher-Yates) and `playNext`/`playPrev`
  from `src/hooks/useAudioEngine.ts`.

JS strings are modelled as Lean `String`s; JS numbers appearing in the
modelled code are integers in practice (byte sizes, epoch-millisecond
timestamps, counters) and are modelled as `Nat`/`Int`.  Asynchrony is
modelled by sequential execution with environment oracles deciding the
outcome of each external effect (metadata extraction, handle persistence,
batch writes, the cancellation signal read at each chunk boundary).
-/

namespace Asound

/-! ## `chunkArray` (src/lib/importer.ts) -/

/-- Inner loop of `chunkArray` for a positive chunk size `k + 1`, with a
structural fuel argument so the definition evaluates by kernel reduction:
`for (let i = 0; i < items.length; i += chunkSize) chunks.push(items.slice(i, i + chunkSize))`. -/
def chunksGoF (k : Nat) : Nat → List α → List (List α)
  | _, [] => []
  | 0, x :: xs => [x :: xs]
  | fuel + 1, x :: xs =>
    (x :: xs).take (k + 1) :: chunksGoF k fuel ((x :: xs).drop (k + 1))

def chunksGo (k : Nat) (l : List α) : List (List α) :=
  chunksGoF k l.length l

theorem chunksGoF_nil (k fuel : Nat) : chunksGoF k fuel ([] : List α) = [] := by
  cases fuel <;> rfl

theorem chunksGoF_congr (k : Nat) :
    ∀ (fuel fuel' : Nat) (l : List α), l.length ≤ fuel + 1 →
      l.length ≤ fuel' + 1 → chunksGoF k fuel l = chunksGoF k fuel' l := by
  intro fuel
  induction fuel using Nat.strong_induction_on with
  | _ fuel ih =>
    intro fuel' l h h'
    cases l with
    | nil => rw [chunksGoF_nil, chunksGoF_nil]
    | cons x xs =>
      cases fuel with
      | zero =>
        have hx : xs = [] := by
          simp only [List.length_cons] at h
          exact List.length_eq_zero.mp (by omega)
        subst hx
        cases fuel' with
        | zero => rfl
        | succ f' =>
          rw [chunksGoF, chunksGoF]
          simp [chunksGoF_nil]
      | succ f =>
        cases fuel' with
        | zero =>
          have hx : xs = [] := by
            simp only [List.length_cons] at h'
            exact List.length_eq_zero.mp (by omega)
          subst hx
          rw [chunksGoF, chunksGoF]
          simp [chunksGoF_nil]
        | succ f' =>
          rw [chunksGoF, chunksGoF]
          congr 1
          apply ih f (by omega) f'
          · simp only [List.length_drop, List.length_cons] at h ⊢
            omega
          · simp only [List.length_drop, List.length_cons] at h' ⊢
            omega

theorem chunksGo_nil (k : Nat) : chunksGo k ([] : List α) = [] := rfl

theorem chunksGo_cons (k : Nat) (x : α) (xs : List α) :
    chunksGo k (x :: xs) =
      (x :: xs).take (k + 1) :: chunksGo k ((x :: xs).drop (k + 1)) := by
  rw [chunksGo, chunksGo]
  show chunksGoF k (xs.length + 1) (x :: xs) = _
  rw [chunksGoF]
  congr 1
  apply chunksGoF_congr
  · simp only [List.length_drop, List.length_cons]
    omega
  · omega

/-- `chunkArray(items, chunkSize)`: returns `[items]` when `chunkSize <= 0`,
otherwise slices `items` into consecutive chunks of length `chunkSize`. -/
def chunkArray (items : List α) (chunkSize : Int) : List (List α) :=
  if chunkSize ≤ 0 then [items]
  else chunksGo (chunkSize.toNat - 1) items

theorem chunksGo_flatten (k : Nat) : ∀ l : List α, (chunksGo k l).flatten = l
  | [] => by simp [chunksGo_nil]
  | x :: xs => by
    rw [chunksGo_cons]
    have ih := chunksGo_flatten k ((x :: xs).drop (k + 1))
    simp only [List.flatten_cons, ih, List.take_append_drop]
termination_by l => l.length
decreasing_by
  simp only [List.length_drop, List.length_cons]
  omega

/-- Every chunk other than the last has length exactly `k + 1`. -/
theorem chunksGo_length_exact (k : Nat) :
    ∀ l : List α, ∀ i : Nat, i + 1 < (chunksGo k l).length →
      ((chunksGo k l).getD i []).length = k + 1
  | [], i, h => by simp [chunksGo_nil] at h
  | x :: xs, i, h => by
    rw [chunksGo_cons] at h ⊢
    cases i with
    | zero =>
      have hlen : k + 1 ≤ (x :: xs).length := by
        by_contra hlt
        push_neg at hlt
        have hdrop : (x :: xs).drop (k + 1) = [] := by
          apply List.drop_eq_nil_of_le
          omega
        rw [hdrop] at h
        simp [chunksGo_nil] at h
      simpa using List.length_take_of_le hlen
    | succ j =>
      have := chunksGo_length_exact k ((x :: xs).drop (k + 1)) j (by
        simpa using h)
      simpa using this
termination_by l => l.length
decreasing_by
  simp only [List.length_drop, List.length_cons]
  omega

theorem chunkArray_flatten_pos (items : List α) (chunkSize : Int)
    (h : 0 < chunkSize) : (chunkArray items chunkSize).flatten = items := by
  rw [chunkArray, if_neg (by omega)]
  exact chunksGo_flatten _ items

theorem chunkArray_length_sum (items : List α) (chunkSize : Int) :
    ((chunkArray items chunkSize).map List.length).sum = items.length := by
  by_cases h : chunkSize ≤ 0
  · simp [chunkArray, if_pos h]
  · rw [← List.length_flatten, chunkArray_flatten_pos items chunkSize (by omega)]

/-- C10: `chunkArray` partitions its input: for `chunkSize > 0` the chunks
concatenate back to the input and every chunk except possibly the last has
length exactly `chunkSize`; for `chunkSize <= 0` the result is the single
chunk holding the whole input. -/
theorem chunkArray_partitions :
    (∀ (items : List Nat) (chunkSize : Int), 0 < chunkSize →
      (chunkArray items chunkSize).flatten = items ∧
      (∀ i : Nat, i + 1 < (chunkArray items chunkSize).length →
        (((chunkArray items chunkSize).getD i []).length : Int) = chunkSize)) ∧
    (∀ (items : List Nat) (chunkSize : Int), chunkSize ≤ 0 →
      chunkArray items chunkSize = [items]) := by
  constructor
  · intro items chunkSize h
    refine ⟨chunkArray_flatten_pos items chunkSize h, ?_⟩
    intro i hi
    rw [chunkArray, if_neg (by omega)] at hi ⊢
    rw [chunksGo_length_exact _ items i hi]
    omega
  · intro items chunkSize h
    rw [chunkArray, if_pos h]

/-- Witness for C10 at a concrete input. -/
theorem chunkArray_partitions_witness :
    (chunkArray [1, 2, 3, 4, 5] 2).flatten = [1, 2, 3, 4, 5] ∧
      chunkArray ([1, 2, 3] : List Nat) (-1) = [[1, 2, 3]] := by
  refine ⟨(chunkArray_partitions.1 [1, 2, 3, 4, 5] 2 (by decide)).1, ?_⟩
  exact chunkArray_partitions.2 [1, 2, 3] (-1) (by decide)

/-! ## `buildFileSignature` (src/lib/fileAccess.ts)

JS strings are Lean `String`s.  `String.prototype.trim` and
`String.prototype.toLowerCase` are modelled over the character list
(`toLowerCase` only changes basic-latin letters here, matching
`Char.toLower`; the modelled identities are file names/paths).  The JS
number-to-string coercion in the template literal is modelled by a decimal
renderer `natDec`/`intDec`. -/

/-- Whitespace predicate of `String.prototype.trim` (ASCII whitespace,
NBSP and BOM; identified by code point). -/
def isJsSpace (c : Char) : Bool :=
  c.toNat = 32 || c.toNat = 9 || c.toNat = 10 || c.toNat = 13 ||
    c.toNat = 11 || c.toNat = 12 || c.toNat = 160 || c.toNat = 65279

/-- `String.prototype.trim`: strip leading and trailing whitespace. -/
def jsTrim (s : String) : String :=
  ⟨((s.data.dropWhile isJsSpace).reverse.dropWhile isJsSpace).reverse⟩

/-- `String.prototype.toLowerCase` restricted to basic-latin letters. -/
def jsToLower (s : String) : String :=
  ⟨s.data.map Char.toLower⟩

theorem toNat_ofNat_lt (n : Nat) (h : n < 55296) : (Char.ofNat n).toNat = n := by
  have hv : n.isValidChar := Or.inl h
  rw [Char.ofNat, dif_pos hv]
  simp [Char.ofNatAux, Char.toNat, UInt32.toNat]

/-- Reversed decimal digits of a natural number. -/
def natDecRev (n : Nat) : List Char :=
  if n < 10 then [Char.ofNat (48 + n)]
  else Char.ofNat (48 + n % 10) :: natDecRev (n / 10)
termination_by n
decreasing_by exact Nat.div_lt_self (by omega) (by omega)

/-- Decimal rendering of a natural number (JS `${n}` for `n >= 0`). -/
def natDec (n : Nat) : String :=
  ⟨(natDecRev n).reverse⟩

/-- Decimal rendering of an integer (JS `${n}`). -/
def intDec (i : Int) : String :=
  if i < 0 then "-" ++ natDec (-i).toNat else natDec i.toNat

/-- Value of a reversed digit list; inverse of `natDecRev`. -/
def valRev : List Char → Nat
  | [] => 0
  | c :: cs => (c.toNat - 48) + 10 * valRev cs

theorem valRev_natDecRev (n : Nat) : valRev (natDecRev n) = n := by
  rw [natDecRev]
  split
  · rw [valRev, valRev, toNat_ofNat_lt _ (by omega)]
    omega
  · have ih := valRev_natDecRev (n / 10)
    rw [valRev, ih, toNat_ofNat_lt _ (by omega)]
    omega
termination_by n
decreasing_by exact Nat.div_lt_self (by omega) (by omega)

theorem natDecRev_injective : Function.Injective natDecRev := by
  intro a b h
  have := valRev_natDecRev a
  rw [h, valRev_natDecRev] at this
  omega

theorem natDec_injective : Function.Injective natDec := by
  intro a b h
  have hr : (natDecRev a).reverse = (natDecRev b).reverse :=
    congrArg String.data h
  exact natDecRev_injective (List.reverse_injective hr)

theorem natDecRev_digits (n : Nat) : ∀ c ∈ natDecRev n, 48 ≤ c.toNat := by
  rw [natDecRev]
  split
  · intro c hc
    rw [List.mem_singleton] at hc
    subst hc
    rw [toNat_ofNat_lt _ (by omega)]
    omega
  · intro c hc
    rcases List.mem_cons.mp hc with hc | hc
    · subst hc
      rw [toNat_ofNat_lt _ (by omega)]
      omega
    · exact natDecRev_digits (n / 10) c hc
termination_by n
decreasing_by exact Nat.div_lt_self (by omega) (by omega)

theorem natDecRev_ne_nil (n : Nat) : natDecRev n ≠ [] := by
  rw [natDecRev]
  split <;> simp

theorem intDec_injective : Function.Injective intDec := by
  intro a b h
  by_cases ha : a < 0 <;> by_cases hb : b < 0
  · rw [intDec, if_pos ha, intDec, if_pos hb] at h
    have hdata := congrArg String.data h
    simp only [String.data_append] at hdata
    have := natDec_injective (String.ext (List.append_cancel_left hdata))
    omega
  · exfalso
    rw [intDec, if_pos ha, intDec, if_neg hb] at h
    have hdata := congrArg String.data h
    simp only [String.data_append] at hdata
    have hb' : (natDec b.toNat).data = (natDecRev b.toNat).reverse := rfl
    rw [hb'] at hdata
    have hmem : '-' ∈ (natDecRev b.toNat).reverse := by
      rw [← hdata]
      exact List.mem_cons_self _ _
    have hdig := natDecRev_digits b.toNat '-' (List.mem_reverse.mp hmem)
    have h45 : ('-').toNat = 45 := by decide
    rw [h45] at hdig
    omega
  · exfalso
    rw [intDec, if_neg ha, intDec, if_pos hb] at h
    have hdata := congrArg String.data h
    simp only [String.data_append] at hdata
    have ha' : (natDec a.toNat).data = (natDecRev a.toNat).reverse := rfl
    rw [ha'] at hdata
    have hmem : '-' ∈ (natDecRev a.toNat).reverse := by
      rw [hdata]
      exact List.mem_cons_self _ _
    have hdig := natDecRev_digits a.toNat '-' (List.mem_reverse.mp hmem)
    have h45 : ('-').toNat = 45 := by decide
    rw [h45] at hdig
    omega
  · rw [intDec, if_neg ha, intDec, if_neg hb] at h
    have := natDec_injective h
    omega

theorem isJsSpace_toLower (c : Char) : isJsSpace (Char.toLower c) = isJsSpace c := by
  rw [Char.toLower]
  by_cases h : Char.toNat c ≥ 65 ∧ Char.toNat c ≤ 90
  · rw [if_pos h]
    have hof := toNat_ofNat_lt (Char.toNat c + 32) (by omega)
    have h1 : isJsSpace (Char.ofNat (Char.toNat c + 32)) = false := by
      simp only [isJsSpace, hof, Bool.or_eq_false_iff, decide_eq_false_iff_not]
      omega
    have h2 : isJsSpace c = false := by
      simp only [isJsSpace, Bool.or_eq_false_iff, decide_eq_false_iff_not]
      omega
    rw [h1, h2]
  · rw [if_neg h]

theorem dropWhile_map_toLower :
    ∀ p q : List Char, p.map Char.toLower = q.map Char.toLower →
      (p.dropWhile isJsSpace).map Char.toLower =
        (q.dropWhile isJsSpace).map Char.toLower
  | [], [], _ => rfl
  | [], _ :: _, h => by simp at h
  | _ :: _, [], h => by simp at h
  | p :: ps, q :: qs, h => by
    simp only [List.map_cons, List.cons.injEq] at h
    obtain ⟨h0, h1⟩ := h
    have hsp : isJsSpace p = isJsSpace q := by
      rw [← isJsSpace_toLower p, h0, isJsSpace_toLower]
    rw [List.dropWhile_cons, List.dropWhile_cons, hsp]
    by_cases hq : isJsSpace q = true
    · rw [if_pos hq, if_pos hq]
      exact dropWhile_map_toLower ps qs h1
    · rw [if_neg hq, if_neg hq]
      simp only [List.map_cons, List.cons.injEq]
      exact ⟨h0, h1⟩

theorem jsTrim_lower_congr (x y : String) (h : jsToLower x = jsToLower y) :
    jsToLower (jsTrim x) = jsToLower (jsTrim y) := by
  have hd : x.data.map Char.toLower = y.data.map Char.toLower :=
    congrArg String.data h
  have d1 := dropWhile_map_toLower x.data y.data hd
  have d2 := dropWhile_map_toLower (x.data.dropWhile isJsSpace).reverse
    (y.data.dropWhile isJsSpace).reverse
    (by rw [List.map_reverse, List.map_reverse, d1])
  apply String.ext
  show (((x.data.dropWhile isJsSpace).reverse.dropWhile isJsSpace).reverse).map
      Char.toLower =
    (((y.data.dropWhile isJsSpace).reverse.dropWhile isJsSpace).reverse).map
      Char.toLower
  rw [List.map_reverse, List.map_reverse, d2]

/-- The identity part of the signature: `sourcePath || file.name`
(JS `||` falls back on the empty string). -/
def resolveBase (name : String) (sourcePath : Option String) : String :=
  match sourcePath with
  | some p => if p = "" then name else p
  | none => name

/-- `buildFileSignature(file, sourcePath)` from src/lib/fileAccess.ts:
`((sourcePath || file.name).trim().toLowerCase())::size::lastModified`. -/
def buildFileSignature (name : String) (size : Nat) (lastModified : Int)
    (sourcePath : Option String) : String :=
  jsToLower (jsTrim (resolveBase name sourcePath)) ++ "::" ++ natDec size ++
    "::" ++ intDec lastModified

/-- C6: the signature function is deterministic (definitional in the pure
embedding), case-insensitive in the path identity, and sensitive to
`lastModified`: any two inputs with the same name/path/size but different
timestamps get different signatures. -/
theorem buildFileSignature_props :
    (∀ (name : String) (size : Nat) (lm : Int) (sp : Option String),
      buildFileSignature name size lm sp = buildFileSignature name size lm sp) ∧
    (∀ (size : Nat) (lm : Int) (name name' : String)
        (sp sp' : Option String),
      jsToLower (resolveBase name sp) = jsToLower (resolveBase name' sp') →
      buildFileSignature name size lm sp = buildFileSignature name' size lm sp') ∧
    (∀ (name : String) (size : Nat) (lm lm' : Int) (sp : Option String),
      lm ≠ lm' →
      buildFileSignature name size lm sp ≠ buildFileSignature name size lm' sp) := by
  refine ⟨fun _ _ _ _ => rfl, ?_, ?_⟩
  · intro size lm name name' sp sp' h
    unfold buildFileSignature
    rw [jsTrim_lower_congr _ _ h]
  · intro name size lm lm' sp hne heq
    apply hne
    unfold buildFileSignature at heq
    have hdata := congrArg String.data heq
    simp only [String.data_append] at hdata
    have := String.ext (List.append_cancel_left hdata)
    exact intDec_injective this

/-- Witness for C6 at concrete inputs: case-variant paths agree, a
timestamp bumped by 1 disagrees. -/
theorem buildFileSignature_props_witness :
    buildFileSignature "Song.MP3" 100 5 none =
        buildFileSignature "song.mp3" 100 5 none ∧
      buildFileSignature "x" 1 7 (some "Music/a.mp3") ≠
        buildFileSignature "x" 1 8 (some "Music/a.mp3") :=
  ⟨buildFileSignature_props.2.1 100 5 "Song.MP3" "song.mp3" none none (by decide),
   buildFileSignature_props.2.2 "x" 1 7 8 (some "Music/a.mp3") (by decide)⟩

/-! ## Import pipeline (src/store/player.ts)

`importFilesChunked` is modelled as a pure function over an environment of
oracles deciding the outcome of each external effect: the pre-existing
library (`trackRepo.getAll`), whether `readAudioMetadata` rejects for a
candidate and what it returns otherwise, whether `handleRepo.save` fails,
whether the rest of the per-candidate mapper throws (the outer `catch`,
e.g. `crypto.randomUUID` in a non-secure context), whether the `k`-th
`trackRepo.upsertAll` attempt of chunk `i` fails, and the state of the
cancellation signal as read at each chunk boundary.  `mapWithConcurrency`
preserves the index association of its results, so its outcome over the
deterministic oracles is an index-preserving map.  `crypto.randomUUID` and
`Date.now()` produce values no modelled code inspects and are omitted from
the track record. -/

inductive TrackSource where
  | handle
  | file
  | blob
deriving DecidableEq, Repr

/-- The track record as written by the import mapper (db/types.ts
`TrackMeta`, restricted to the fields the modelled code reads). -/
structure TrackMeta where
  title : String
  artist : String
  album : Option String
  duration : Nat
  coverUrl : Option String
  lastModified : Int
  size : Nat
  sourcePath : Option String
  signature : String
  source : TrackSource
  handleId : Option Nat
  hasBlob : Bool
deriving DecidableEq, Repr

/-- An `AudioImportCandidate` (src/lib/fileAccess.ts). -/
structure Candidate where
  name : String
  size : Nat
  lastModified : Int
  sourcePath : Option String
  signature : String
  hasHandle : Bool
deriving DecidableEq, Repr

/-- Best-effort metadata as returned by `readAudioMetadata`. -/
structure AudioMetadata where
  title : Option String
  artist : Option String
  album : Option String
  duration : Option Nat
  coverUrl : Option String
deriving DecidableEq, Repr

structure ImportFailure where
  fileName : String
  reason : String
deriving DecidableEq, Repr

/-- Environment oracles for one `importFilesChunked` invocation. -/
structure ImportEnv where
  library : List TrackMeta
  extractThrows : Candidate → Bool
  extractMeta : Candidate → AudioMetadata
  handleSaveFails : Candidate → Bool
  buildThrows : Candidate → Bool
  buildReason : Candidate → String
  writeReason : String
  writeFails : Nat → Nat → Bool
  abortedAt : Nat → Bool
  autoImport : Bool

/-- `sourcePath.split("/").pop() || ""`. -/
def lastPathSegment (sp : String) : String :=
  ((sp.splitOn "/").getLast?).getD ""

/-- `getTrackSignature(track)`: the stored signature when present (JS
truthiness: the empty string counts as absent), otherwise a legacy
composite from `sourcePath`; `null` when neither exists. -/
def getTrackSignature (t : TrackMeta) : Option String :=
  if t.signature ≠ "" then some t.signature
  else
    match t.sourcePath with
    | none => none
    | some sp =>
      if sp = "" then none
      else some (jsToLower (sp ++ "|" ++ lastPathSegment sp ++ "|" ++
        natDec t.size ++ "|" ++ intDec t.lastModified))

/-- `name.replace(/\.[^.]+$/, "")`. -/
def stripExtension (s : String) : String :=
  let ext := s.data.reverse.takeWhile (fun c => c ≠ '.')
  if ext.length = s.data.length then s
  else if ext.isEmpty then s
  else ⟨s.data.take (s.data.length - ext.length - 1)⟩

/-- The fallback metadata built in the inner `catch` around
`readAudioMetadata`. -/
def fallbackMetadata (fallbackTitle : String) : AudioMetadata :=
  { title := some fallbackTitle, artist := some "Unknown", album := none,
    duration := some 0, coverUrl := none }

/-- Result of the per-candidate mapper passed to `mapWithConcurrency`. -/
inductive MapResult where
  | ok (track : TrackMeta) (fileName : String)
  | fail (f : ImportFailure)
deriving DecidableEq, Repr

/-- The per-candidate mapper of `importFilesChunked`: extraction with
fallback on throw, best-effort handle persistence, track construction,
materialization policy, with the outer `catch` producing a failure entry. -/
def processCandidate (env : ImportEnv) (c : Candidate) : MapResult :=
  let stripped := stripExtension c.name
  let fallbackTitle := if stripped = "" then c.name else stripped
  if env.buildThrows c then
    .fail { fileName := c.name, reason := env.buildReason c }
  else
    let metadata :=
      if env.extractThrows c then fallbackMetadata fallbackTitle
      else env.extractMeta c
    let handleId : Option Nat :=
      if c.hasHandle && !(env.handleSaveFails c) then some 0 else none
    let title :=
      match metadata.title with
      | some t => if jsTrim t = "" then fallbackTitle else jsTrim t
      | none => fallbackTitle
    let artist :=
      match metadata.artist with
      | some a => if jsTrim a = "" then "Unknown" else jsTrim a
      | none => "Unknown"
    let track : TrackMeta :=
      { title := title, artist := artist, album := metadata.album,
        duration := metadata.duration.getD 0,
        coverUrl := metadata.coverUrl,
        lastModified := c.lastModified, size := c.size,
        sourcePath := c.sourcePath, signature := c.signature,
        source := if handleId.isSome then .handle else .file,
        handleId := handleId, hasBlob := false }
    let track :=
      if env.autoImport || !c.hasHandle || handleId.isNone then
        { track with source := .blob, hasBlob := true, handleId := none }
      else track
    .ok track c.name

/-- Dedup pass: seen-signature set, work queue, skipped count. -/
def dedupQueue : List String → List Candidate →
    List String × List Candidate × Nat
  | sigs, [] => (sigs, [], 0)
  | sigs, c :: cs =>
    if c.signature ∈ sigs then
      let r := dedupQueue sigs cs
      (r.1, r.2.1, r.2.2 + 1)
    else
      let r := dedupQueue (c.signature :: sigs) cs
      (r.1, c :: r.2.1, r.2.2)

def MAX_IMPORT_FAILURES : Nat := 50

/-- `limitFailures`: cap the recorded failure list at 50 entries. -/
def limitFailures (current incoming : List ImportFailure) : List ImportFailure :=
  if incoming = [] then current
  else (current ++ incoming).take MAX_IMPORT_FAILURES

/-- `revokeTrackCoverIfBlob`: the cover URL revoked for a track, if any. -/
def coverIfBlob (t : TrackMeta) : Option String :=
  match t.coverUrl with
  | some u => if u.startsWith "blob:" then some u else none
  | none => none

/-- The successfully mapped `(track, fileName)` pairs of a chunk
(`tracksToSave`). -/
def mapperTracks (env : ImportEnv) (chunk : List Candidate) :
    List (TrackMeta × String) :=
  chunk.filterMap fun c =>
    match processCandidate env c with
    | .ok t n => some (t, n)
    | .fail _ => none

/-- The mapper failures of a chunk (`chunkFailures` before the write). -/
def mapperFailures (env : ImportEnv) (chunk : List Candidate) :
    List ImportFailure :=
  chunk.filterMap fun c =>
    match processCandidate env c with
    | .ok _ _ => none
    | .fail f => some f

/-- Observable outcome of processing one chunk: what got persisted, the
failure entries, and the write/yield/revocation trace. -/
structure ChunkOutcome where
  saved : List TrackMeta
  chunkFailures : List ImportFailure
  writeError : Bool
  writeAttempts : Nat
  yieldedBetweenAttempts : Bool
  revokedCovers : List String
deriving DecidableEq, Repr

/-- One chunk of `importFilesChunked`: map the candidates, then the
two-attempt write loop (`for attempt in 0..1`, with a `yieldToUI` between
a failed first attempt and the retry); on a failed retry demote every
mapped record to a failure entry and revoke its blob cover URL. -/
def processChunk (env : ImportEnv) (chunkIdx : Nat) (chunk : List Candidate) :
    ChunkOutcome :=
  let tracksToSave := mapperTracks env chunk
  let chunkFailures := mapperFailures env chunk
  if tracksToSave = [] then
    { saved := [], chunkFailures := chunkFailures, writeError := false,
      writeAttempts := 0, yieldedBetweenAttempts := false, revokedCovers := [] }
  else if env.writeFails chunkIdx 0 = false then
    { saved := tracksToSave.map Prod.fst, chunkFailures := chunkFailures,
      writeError := false, writeAttempts := 1,
      yieldedBetweenAttempts := false, revokedCovers := [] }
  else if env.writeFails chunkIdx 1 = false then
    { saved := tracksToSave.map Prod.fst, chunkFailures := chunkFailures,
      writeError := false, writeAttempts := 2,
      yieldedBetweenAttempts := true, revokedCovers := [] }
  else
    { saved := [],
      chunkFailures := chunkFailures ++ tracksToSave.map (fun p =>
        { fileName := p.2,
          reason := "Chunk write failed: " ++ env.writeReason }),
      writeError := true, writeAttempts := 2,
      yieldedBetweenAttempts := true,
      revokedCovers := (tracksToSave.map Prod.fst).filterMap coverIfBlob }

/-- Aggregate state threaded through the chunk loop: the durable store,
the in-memory library, the counters and the failure list, plus the trace
of chunk reports (attempt counts, yields, revocations). -/
structure LoopState where
  db : List TrackMeta
  memTracks : List TrackMeta
  succeeded : Nat
  failed : Nat
  processed : Nat
  failures : List ImportFailure
  reports : List ChunkOutcome
deriving DecidableEq, Repr

/-- Fold one chunk outcome into the loop state, as the loop body does. -/
def applyChunk (env : ImportEnv) (chunkIdx : Nat) (chunk : List Candidate)
    (st : LoopState) : LoopState :=
  let out := processChunk env chunkIdx chunk
  { db := st.db ++ out.saved,
    memTracks := if out.saved = [] then st.memTracks
      else out.saved ++ st.memTracks,
    succeeded := st.succeeded + out.saved.length,
    failed := st.failed + out.chunkFailures.length,
    processed := st.processed + chunk.length,
    failures := limitFailures st.failures out.chunkFailures,
    reports := st.reports ++ [out] }

/-- The chunk loop: the cancellation signal is read once per chunk, at the
chunk boundary, before any of the chunk's work; an aborted read returns
the accumulated state with the canceled flag. -/
def runChunks (env : ImportEnv) :
    Nat → List (List Candidate) → LoopState → LoopState × Bool
  | _, [], st => (st, false)
  | i, chunk :: rest, st =>
    if env.abortedAt i then (st, true)
    else runChunks env (i + 1) rest (applyChunk env i chunk st)

structure ImportResult where
  total : Nat
  imported : Nat
  skipped : Nat
  failed : Nat
  canceled : Bool
deriving DecidableEq, Repr

/-- Loop state before the first chunk (`processed` starts at the skipped
count, as in the source). -/
def initState (env : ImportEnv) (skipped : Nat) : LoopState :=
  { db := env.library, memTracks := env.library, succeeded := 0, failed := 0,
    processed := skipped, failures := [], reports := [] }

/-- Signatures of the existing library (`new Set(existing.map(getTrackSignature).filter(Boolean))`). -/
def librarySignatures (env : ImportEnv) : List String :=
  env.library.filterMap getTrackSignature

def importQueue (env : ImportEnv) (candidates : List Candidate) :
    List Candidate :=
  (dedupQueue (librarySignatures env) candidates).2.1

def importSkipped (env : ImportEnv) (candidates : List Candidate) : Nat :=
  (dedupQueue (librarySignatures env) candidates).2.2

/-- The chunk loop of one import invocation, from the deduplicated queue. -/
def importRun (env : ImportEnv) (candidates : List Candidate)
    (chunkSize : Int) : LoopState × Bool :=
  runChunks env 0 (chunkArray (importQueue env candidates) chunkSize)
    (initState env (importSkipped env candidates))

/-- `importFilesChunked(files, opts)` run to its returned `ImportResult`,
paired with the final loop state (durable store, in-memory library,
failure list, chunk reports). -/
def importFilesChunked (env : ImportEnv) (candidates : List Candidate)
    (chunkSize : Int) : ImportResult × LoopState :=
  if candidates = [] then
    ({ total := 0, imported := 0, skipped := 0, failed := 0,
       canceled := false }, initState env 0)
  else
    ({ total := candidates.length,
       imported := (importRun env candidates chunkSize).1.succeeded,
       skipped := importSkipped env candidates,
       failed := (importRun env candidates chunkSize).1.failed,
       canceled := (importRun env candidates chunkSize).2 },
     (importRun env candidates chunkSize).1)

theorem mapper_partition (env : ImportEnv) (chunk : List Candidate) :
    (mapperTracks env chunk).length + (mapperFailures env chunk).length =
      chunk.length := by
  induction chunk with
  | nil => rfl
  | cons c cs ih =>
    rw [mapperTracks, mapperFailures] at ih ⊢
    rw [List.filterMap_cons, List.filterMap_cons]
    cases h : processCandidate env c <;> simp only [h] <;> simp <;> omega

theorem processChunk_partition (env : ImportEnv) (i : Nat)
    (chunk : List Candidate) :
    (processChunk env i chunk).saved.length +
      (processChunk env i chunk).chunkFailures.length = chunk.length := by
  have hp := mapper_partition env chunk
  rw [processChunk]
  by_cases h0 : mapperTracks env chunk = []
  · rw [if_pos h0]
    simp only [List.length_nil, Nat.zero_add]
    rw [h0] at hp
    simpa using hp
  · rw [if_neg h0]
    by_cases h1 : env.writeFails i 0 = false
    · rw [if_pos h1]
      simpa using hp
    · rw [if_neg h1]
      by_cases h2 : env.writeFails i 1 = false
      · rw [if_pos h2]
        simpa using hp
      · rw [if_neg h2]
        simp only [List.length_nil, Nat.zero_add, List.length_append,
          List.length_map]
        omega

theorem runChunks_step (env : ImportEnv) (i : Nat) (chunk : List Candidate)
    (rest : List (List Candidate)) (st : LoopState) :
    runChunks env i (chunk :: rest) st =
      if env.abortedAt i then (st, true)
      else runChunks env (i + 1) rest (applyChunk env i chunk st) := rfl

theorem runChunks_counts (env : ImportEnv) :
    ∀ (chunks : List (List Candidate)) (i : Nat) (st : LoopState),
      (runChunks env i chunks st).2 = false →
      ((runChunks env i chunks st).1).succeeded +
          ((runChunks env i chunks st).1).failed =
        st.succeeded + st.failed + (chunks.map List.length).sum
  | [], _, _, _ => by simp [runChunks]
  | chunk :: rest, i, st, h => by
    rw [runChunks_step] at h ⊢
    by_cases ha : env.abortedAt i = true
    · rw [if_pos ha] at h
      simp at h
    · rw [if_neg ha] at h ⊢
      have ih := runChunks_counts env rest (i + 1) (applyChunk env i chunk st) h
      rw [ih, applyChunk]
      have := processChunk_partition env i chunk
      simp only [List.map_cons, List.sum_cons]
      omega

theorem dedupQueue_partition :
    ∀ (sigs : List String) (cs : List Candidate),
      (dedupQueue sigs cs).2.2 + (dedupQueue sigs cs).2.1.length = cs.length
  | _, [] => rfl
  | sigs, c :: cs => by
    rw [dedupQueue]
    by_cases h : c.signature ∈ sigs
    · rw [if_pos h]
      have := dedupQueue_partition sigs cs
      simpa using by omega
    · rw [if_neg h]
      have := dedupQueue_partition (c.signature :: sigs) cs
      simp only [List.length_cons]
      omega

/-- C1: on any run that completes without cancellation,
`imported + skipped + failed = total`, and `total` is the number of
candidates passed in. -/
theorem importFilesChunked_counts (env : ImportEnv)
    (candidates : List Candidate) (chunkSize : Int)
    (h : (importFilesChunked env candidates chunkSize).1.canceled = false) :
    (importFilesChunked env candidates chunkSize).1.imported +
        (importFilesChunked env candidates chunkSize).1.skipped +
        (importFilesChunked env candidates chunkSize).1.failed =
      (importFilesChunked env candidates chunkSize).1.total ∧
    (importFilesChunked env candidates chunkSize).1.total =
      candidates.length := by
  by_cases hc : candidates = []
  · subst hc
    exact ⟨rfl, rfl⟩
  · rw [importFilesChunked, if_neg hc] at h ⊢
    refine ⟨?_, rfl⟩
    have h' : (importRun env candidates chunkSize).2 = false := h
    have hr := runChunks_counts env
      (chunkArray (importQueue env candidates) chunkSize) 0
      (initState env (importSkipped env candidates)) h'
    have hz : (initState env (importSkipped env candidates)).succeeded = 0 := rfl
    have hz' : (initState env (importSkipped env candidates)).failed = 0 := rfl
    rw [hz, hz', chunkArray_length_sum] at hr
    have hd : importSkipped env candidates +
        (importQueue env candidates).length = candidates.length :=
      dedupQueue_partition (librarySignatures env) candidates
    show (importRun env candidates chunkSize).1.succeeded +
        importSkipped env candidates +
        (importRun env candidates chunkSize).1.failed = candidates.length
    have hrun : (importRun env candidates chunkSize).1 =
        (runChunks env 0 (chunkArray (importQueue env candidates) chunkSize)
          (initState env (importSkipped env candidates))).1 := rfl
    rw [hrun]
    omega

/-- An all-success oracle environment over an empty library, used by
concrete witnesses. -/
def envOk : ImportEnv :=
  { library := [], extractThrows := fun _ => false,
    extractMeta := fun _ =>
      { title := none, artist := none, album := none, duration := none,
        coverUrl := none },
    handleSaveFails := fun _ => false, buildThrows := fun _ => false,
    buildReason := fun _ => "", writeReason := "",
    writeFails := fun _ _ => false, abortedAt := fun _ => false,
    autoImport := false }

/-- A concrete candidate used by witnesses. -/
def candA : Candidate :=
  { name := "a.mp3", size := 3, lastModified := 1, sourcePath := none,
    signature := "a", hasHandle := false }

/-- Witness for C1 at a concrete input. -/
theorem importFilesChunked_counts_witness :
    (importFilesChunked envOk [candA] 100).1.canceled = false ∧
      (importFilesChunked envOk [candA] 100).1.imported +
          (importFilesChunked envOk [candA] 100).1.skipped +
          (importFilesChunked envOk [candA] 100).1.failed =
        (importFilesChunked envOk [candA] 100).1.total :=
  ⟨by decide, (importFilesChunked_counts envOk [candA] 100 (by decide)).1⟩

/-- The `ChunkOutcome` of a chunk whose two write attempts both failed. -/
def failedWriteOutcome (env : ImportEnv) (chunk : List Candidate) :
    ChunkOutcome :=
  { saved := [],
    chunkFailures := mapperFailures env chunk ++
      (mapperTracks env chunk).map (fun p =>
        { fileName := p.2, reason := "Chunk write failed: " ++ env.writeReason }),
    writeError := true, writeAttempts := 2, yieldedBetweenAttempts := true,
    revokedCovers := ((mapperTracks env chunk).map Prod.fst).filterMap coverIfBlob }

theorem processChunk_write_failure (env : ImportEnv) (i : Nat)
    (chunk : List Candidate)
    (hw0 : env.writeFails i 0 = true) (hw1 : env.writeFails i 1 = true)
    (hne : mapperTracks env chunk ≠ []) :
    processChunk env i chunk = failedWriteOutcome env chunk := by
  rw [processChunk, if_neg hne, if_neg (by simp [hw0]), if_neg (by simp [hw1]),
    failedWriteOutcome]

/-- C3: if both write attempts of a chunk fail, the write was attempted
twice with a yield to the event loop in between, every mapped record of
the chunk is demoted to a failure entry (with its blob cover URL revoked),
nothing of the chunk reaches the durable store, the in-memory library or
the imported count, and the loop proceeds to the next chunk from that
unchanged state. -/
theorem chunk_write_failure_all_or_nothing (env : ImportEnv) (i : Nat)
    (chunk : List Candidate) (rest : List (List Candidate)) (st : LoopState)
    (hna : env.abortedAt i = false)
    (hw0 : env.writeFails i 0 = true) (hw1 : env.writeFails i 1 = true)
    (hne : mapperTracks env chunk ≠ []) :
    runChunks env i (chunk :: rest) st =
      runChunks env (i + 1) rest (applyChunk env i chunk st) ∧
    (applyChunk env i chunk st).succeeded = st.succeeded ∧
    (applyChunk env i chunk st).memTracks = st.memTracks ∧
    (applyChunk env i chunk st).db = st.db ∧
    (applyChunk env i chunk st).failed = st.failed + chunk.length ∧
    (applyChunk env i chunk st).failures =
      limitFailures st.failures (failedWriteOutcome env chunk).chunkFailures ∧
    (applyChunk env i chunk st).reports =
      st.reports ++ [failedWriteOutcome env chunk] := by
  have hpc := processChunk_write_failure env i chunk hw0 hw1 hne
  have hpart := processChunk_partition env i chunk
  rw [hpc] at hpart
  have hlen : (failedWriteOutcome env chunk).chunkFailures.length =
      chunk.length := by
    have h0 : (failedWriteOutcome env chunk).saved.length = 0 := rfl
    omega
  have happ : applyChunk env i chunk st =
      { db := st.db, memTracks := st.memTracks, succeeded := st.succeeded,
        failed := st.failed + chunk.length,
        processed := st.processed + chunk.length,
        failures := limitFailures st.failures
          (failedWriteOutcome env chunk).chunkFailures,
        reports := st.reports ++ [failedWriteOutcome env chunk] } := by
    rw [applyChunk, hpc, ← hlen]
    simp [failedWriteOutcome]
  exact ⟨by rw [runChunks_step, if_neg (by simp [hna])], by rw [happ],
    by rw [happ], by rw [happ], by rw [happ], by rw [happ], by rw [happ]⟩

/-- Oracle environment whose batch writes always fail. -/
def envBadWrites : ImportEnv :=
  { envOk with writeFails := fun _ _ => true, writeReason := "db down" }

/-- Witness for C3 at a concrete input. -/
theorem chunk_write_failure_witness :
    mapperTracks envBadWrites [candA] ≠ [] ∧
      (applyChunk envBadWrites 0 [candA] (initState envBadWrites 0)).db =
        (initState envBadWrites 0).db ∧
      (applyChunk envBadWrites 0 [candA] (initState envBadWrites 0)).failed =
        (initState envBadWrites 0).failed + 1 :=
  ⟨by decide,
   (chunk_write_failure_all_or_nothing envBadWrites 0 [candA] []
      (initState envBadWrites 0) (by decide) (by decide) (by decide)
      (by decide)).2.2.2.1,
   (chunk_write_failure_all_or_nothing envBadWrites 0 [candA] []
      (initState envBadWrites 0) (by decide) (by decide) (by decide)
      (by decide)).2.2.2.2.1⟩

/-- The records the chunk loop persists while it runs chunks `i, i+1, ...`
to completion: the concatenation of each chunk's saved list. -/
def runChunksDb (env : ImportEnv) : Nat → List (List Candidate) → List TrackMeta
  | _, [] => []
  | i, chunk :: rest =>
    (processChunk env i chunk).saved ++ runChunksDb env (i + 1) rest

theorem runChunks_no_abort (env : ImportEnv) :
    ∀ (chunks : List (List Candidate)) (i : Nat) (st : LoopState),
      (∀ j, j < chunks.length → env.abortedAt (i + j) = false) →
      (runChunks env i chunks st).2 = false
  | [], _, _, _ => rfl
  | chunk :: rest, i, st, h => by
    have h0 : env.abortedAt i = false := by simpa using h 0 (by simp)
    rw [runChunks_step, if_neg (by simp [h0])]
    apply runChunks_no_abort env rest (i + 1) (applyChunk env i chunk st)
    intro j hj
    have := h (j + 1) (by simpa using hj)
    simpa [Nat.add_assoc, Nat.add_comm 1 j] using this

theorem runChunks_db_acc (env : ImportEnv) :
    ∀ (chunks : List (List Candidate)) (i : Nat) (st : LoopState),
      (runChunks env i chunks st).2 = false →
      ((runChunks env i chunks st).1).db = st.db ++ runChunksDb env i chunks
  | [], _, st, _ => by simp [runChunks, runChunksDb]
  | chunk :: rest, i, st, h => by
    rw [runChunks_step] at h ⊢
    by_cases ha : env.abortedAt i = true
    · rw [if_pos ha] at h
      simp at h
    · rw [if_neg ha] at h ⊢
      rw [runChunksDb, runChunks_db_acc env rest (i + 1) _ h, applyChunk]
      simp [List.append_assoc]

theorem runChunks_abort_at (env : ImportEnv) :
    ∀ (k : Nat) (chunks : List (List Candidate)) (i : Nat) (st : LoopState),
      (∀ j, j < k → env.abortedAt (i + j) = false) →
      k < chunks.length → env.abortedAt (i + k) = true →
      runChunks env i chunks st =
        ((runChunks env i (chunks.take k) st).1, true)
  | 0, chunks, i, st, _, hk, habort => by
    cases chunks with
    | nil => simp at hk
    | cons chunk rest =>
      rw [List.take_zero]
      rw [runChunks_step, if_pos (by simpa using habort)]
      rfl
  | k + 1, chunks, i, st, hbefore, hk, habort => by
    cases chunks with
    | nil => simp at hk
    | cons chunk rest =>
      have h0 : env.abortedAt i = false := by
        simpa using hbefore 0 (by omega)
      rw [List.take_succ_cons, runChunks_step, runChunks_step,
        if_neg (by simp [h0]), if_neg (by simp [h0])]
      apply runChunks_abort_at env k rest (i + 1) (applyChunk env i chunk st)
      · intro j hj
        have := hbefore (j + 1) (by omega)
        simpa [Nat.add_assoc, Nat.add_comm 1 j] using this
      · simpa using hk
      · simpa [Nat.add_assoc, Nat.add_comm 1 k] using habort

/-- C5: the cancellation signal is consulted only at chunk boundaries: if
it first reads aborted at the boundary of chunk `k`, the import returns a
`canceled = true` result whose state and counts are exactly those of the
fully completed chunks `0..k-1`, and the durable store keeps everything
those chunks persisted (no rollback). -/
theorem import_cancellation (env : ImportEnv) (candidates : List Candidate)
    (chunkSize : Int) (k : Nat)
    (hne : candidates ≠ [])
    (hbefore : ∀ j, j < k → env.abortedAt j = false)
    (hk : env.abortedAt k = true)
    (hlt : k < (chunkArray (importQueue env candidates) chunkSize).length) :
    (importFilesChunked env candidates chunkSize).1.canceled = true ∧
    importFilesChunked env candidates chunkSize =
      ({ total := candidates.length,
         imported := (runChunks env 0
           ((chunkArray (importQueue env candidates) chunkSize).take k)
           (initState env (importSkipped env candidates))).1.succeeded,
         skipped := importSkipped env candidates,
         failed := (runChunks env 0
           ((chunkArray (importQueue env candidates) chunkSize).take k)
           (initState env (importSkipped env candidates))).1.failed,
         canceled := true },
       (runChunks env 0
         ((chunkArray (importQueue env candidates) chunkSize).take k)
         (initState env (importSkipped env candidates))).1) ∧
    (importFilesChunked env candidates chunkSize).2.db =
      env.library ++ runChunksDb env 0
        ((chunkArray (importQueue env candidates) chunkSize).take k) := by
  have habort := runChunks_abort_at env k
    (chunkArray (importQueue env candidates) chunkSize) 0
    (initState env (importSkipped env candidates))
    (by intro j hj; simpa using hbefore j hj) hlt (by simpa using hk)
  have hrun : importRun env candidates chunkSize =
      ((runChunks env 0
        ((chunkArray (importQueue env candidates) chunkSize).take k)
        (initState env (importSkipped env candidates))).1, true) := habort
  have hprefix : (runChunks env 0
      ((chunkArray (importQueue env candidates) chunkSize).take k)
      (initState env (importSkipped env candidates))).2 = false := by
    apply runChunks_no_abort
    intro j hj
    have : j < k := by
      have := List.length_take_le k
        (chunkArray (importQueue env candidates) chunkSize)
      omega
    simpa using hbefore j this
  have hdb := runChunks_db_acc env
    ((chunkArray (importQueue env candidates) chunkSize).take k) 0
    (initState env (importSkipped env candidates)) hprefix
  rw [importFilesChunked, if_neg hne]
  refine ⟨?_, ?_, ?_⟩
  · show (importRun env candidates chunkSize).2 = true
    rw [hrun]
  · rw [hrun]
  · show (importRun env candidates chunkSize).1.db = _
    rw [hrun]
    simpa using hdb

/-- A second concrete candidate, distinct in signature from `candA`. -/
def candB : Candidate :=
  { name := "b.mp3", size := 4, lastModified := 2, sourcePath := none,
    signature := "b", hasHandle := false }

/-- Oracle environment whose cancellation signal aborts from the second
chunk boundary on. -/
def envAbortLate : ImportEnv :=
  { envOk with abortedAt := fun i => decide (1 ≤ i) }

/-- Witness for C5 at a concrete input: two single-candidate chunks, the
signal aborts at the second boundary; one track is imported and kept. -/
theorem import_cancellation_witness :
    envAbortLate.abortedAt 1 = true ∧
      (importFilesChunked envAbortLate [candA, candB] 1).1.canceled = true :=
  ⟨by decide,
   (import_cancellation envAbortLate [candA, candB] 1 1 (by decide)
      (by
        intro j hj
        have hj0 : j = 0 := by omega
        subst hj0
        decide)
      (by decide) (by decide)).1⟩

theorem chunkArray_flatten (items : List α) (chunkSize : Int) :
    (chunkArray items chunkSize).flatten = items := by
  by_cases h : chunkSize ≤ 0
  · simp [chunkArray, if_pos h]
  · exact chunkArray_flatten_pos items chunkSize (by omega)

theorem processCandidate_ok (env : ImportEnv) (c : Candidate)
    (h : env.buildThrows c = false) :
    ∃ t, processCandidate env c = .ok t c.name ∧
      t.signature = c.signature := by
  rw [processCandidate]
  simp only [h, Bool.false_eq_true, if_false]
  refine ⟨_, rfl, ?_⟩
  split <;> split <;> rfl

theorem mapperTracks_ok (env : ImportEnv) :
    ∀ chunk : List Candidate, (∀ c ∈ chunk, env.buildThrows c = false) →
      (mapperTracks env chunk).map (fun p => p.1.signature) =
          chunk.map Candidate.signature ∧
        mapperFailures env chunk = []
  | [], _ => ⟨rfl, rfl⟩
  | c :: cs, h => by
    obtain ⟨t, ht, hsig⟩ := processCandidate_ok env c (h c (by simp))
    have ih := mapperTracks_ok env cs (fun x hx => h x (by simp [hx]))
    rw [mapperTracks, mapperFailures, List.filterMap_cons, List.filterMap_cons,
      ht]
    rw [mapperTracks, mapperFailures] at ih
    simp only [List.map_cons, List.cons.injEq]
    exact ⟨⟨hsig, ih.1⟩, ih.2⟩

theorem processChunk_ok (env : ImportEnv) (i : Nat) (chunk : List Candidate)
    (hnb : ∀ c ∈ chunk, env.buildThrows c = false)
    (hw : env.writeFails i 0 = false) :
    (processChunk env i chunk).writeError = false ∧
      (processChunk env i chunk).chunkFailures = [] ∧
      (processChunk env i chunk).saved.map TrackMeta.signature =
        chunk.map Candidate.signature := by
  obtain ⟨hsig, hfail⟩ := mapperTracks_ok env chunk hnb
  rw [processChunk]
  by_cases h0 : mapperTracks env chunk = []
  · rw [if_pos h0]
    refine ⟨rfl, hfail, ?_⟩
    show ([] : List TrackMeta).map TrackMeta.signature = _
    rw [h0] at hsig
    simpa using hsig
  · rw [if_neg h0, if_pos hw]
    refine ⟨rfl, hfail, ?_⟩
    show ((mapperTracks env chunk).map Prod.fst).map TrackMeta.signature = _
    rw [List.map_map]
    exact hsig

theorem runChunks_all_ok (env : ImportEnv) :
    ∀ (chunks : List (List Candidate)) (i : Nat) (st : LoopState),
      (∀ c ∈ chunks.flatten, env.buildThrows c = false) →
      (∀ j, env.writeFails j 0 = false) →
      (∀ j, env.abortedAt j = false) →
      (runChunks env i chunks st).2 = false ∧
      ((runChunks env i chunks st).1).succeeded =
        st.succeeded + chunks.flatten.length ∧
      ((runChunks env i chunks st).1).failed = st.failed ∧
      ((runChunks env i chunks st).1).failures = st.failures ∧
      ∃ T : List TrackMeta,
        ((runChunks env i chunks st).1).db = st.db ++ T ∧
        T.map TrackMeta.signature = chunks.flatten.map Candidate.signature
  | [], _, st, _, _, _ => ⟨rfl, by simp [runChunks], rfl, rfl, [], by
      simp [runChunks], by simp⟩
  | chunk :: rest, i, st, hnb, hw, hab => by
    rw [runChunks_step, if_neg (by simp [hab i])]
    have hpc := processChunk_ok env i chunk
      (fun c hc => hnb c (by simp [hc])) (hw i)
    have hpart := processChunk_partition env i chunk
    have ih := runChunks_all_ok env rest (i + 1) (applyChunk env i chunk st)
      (fun c hc => hnb c (by simp [hc])) hw hab
    obtain ⟨hcanc, hsucc, hfail, hflist, T, hdb, hTsig⟩ := ih
    have happ_s : (applyChunk env i chunk st).succeeded =
        st.succeeded + (processChunk env i chunk).saved.length := rfl
    have happ_f : (applyChunk env i chunk st).failed =
        st.failed + (processChunk env i chunk).chunkFailures.length := rfl
    have happ_fl : (applyChunk env i chunk st).failures =
        limitFailures st.failures (processChunk env i chunk).chunkFailures := rfl
    have happ_db : (applyChunk env i chunk st).db =
        st.db ++ (processChunk env i chunk).saved := rfl
    refine ⟨hcanc, ?_, ?_, ?_, ?_⟩
    · rw [hsucc, happ_s]
      have hslen : (processChunk env i chunk).saved.length = chunk.length := by
        have := congrArg List.length hpc.2.2
        simpa using this
      simp only [List.flatten_cons, List.length_append]
      omega
    · rw [hfail, happ_f, hpc.2.1]
      simp
    · rw [hflist, happ_fl, hpc.2.1, limitFailures, if_pos rfl]
    · refine ⟨(processChunk env i chunk).saved ++ T, ?_, ?_⟩
      · rw [hdb, happ_db, List.append_assoc]
      · rw [List.map_append, hTsig, hpc.2.2]
        simp

theorem dedupQueue_all_fresh :
    ∀ (sigs : List String) (cs : List Candidate),
      (∀ c ∈ cs, c.signature ∉ sigs) →
      (cs.map Candidate.signature).Nodup →
      (dedupQueue sigs cs).2.1 = cs ∧ (dedupQueue sigs cs).2.2 = 0
  | _, [], _, _ => ⟨rfl, rfl⟩
  | sigs, c :: cs, hfresh, hnodup => by
    have hn : c.signature ∉ cs.map Candidate.signature ∧
        (cs.map Candidate.signature).Nodup := by
      rw [List.map_cons, List.nodup_cons] at hnodup
      exact hnodup
    rw [dedupQueue, if_neg (by simpa using hfresh c (by simp))]
    have htail := dedupQueue_all_fresh (c.signature :: sigs) cs
      (by
        intro x hx
        simp only [List.mem_cons, not_or]
        refine ⟨?_, hfresh x (by simp [hx])⟩
        intro hxc
        exact hn.1 (by
          rw [← hxc]
          exact List.mem_map_of_mem Candidate.signature hx))
      hn.2
    exact ⟨by simp [htail.1], by simp [htail.2]⟩

/-- C4 (amended): an extraction throw is caught inside the mapper and
replaced with filename-derived fallback metadata, so the file is still
imported.  With no outer-mapper failures, fresh pairwise-distinct
signatures, first-attempt writes succeeding and no cancellation, the
result is `imported = total`, `failed = 0`, `skipped = 0` and an empty
failure list, regardless of which candidates' extraction threw. -/
theorem extraction_throw_still_imports (env : ImportEnv)
    (candidates : List Candidate) (chunkSize : Int)
    (hnb : ∀ c ∈ candidates, env.buildThrows c = false)
    (hw : ∀ j, env.writeFails j 0 = false)
    (hab : ∀ j, env.abortedAt j = false)
    (hfresh : ∀ c ∈ candidates, c.signature ∉ librarySignatures env)
    (hnodup : (candidates.map Candidate.signature).Nodup) :
    (importFilesChunked env candidates chunkSize).1.imported =
        candidates.length ∧
      (importFilesChunked env candidates chunkSize).1.failed = 0 ∧
      (importFilesChunked env candidates chunkSize).1.skipped = 0 ∧
      (importFilesChunked env candidates chunkSize).2.failures = [] := by
  by_cases hc : candidates = []
  · subst hc
    exact ⟨rfl, rfl, rfl, rfl⟩
  · have hq := dedupQueue_all_fresh (librarySignatures env) candidates hfresh
      hnodup
    have hqueue : importQueue env candidates = candidates := hq.1
    have hskip : importSkipped env candidates = 0 := hq.2
    have hrun := runChunks_all_ok env
      (chunkArray (importQueue env candidates) chunkSize) 0
      (initState env (importSkipped env candidates))
      (by
        rw [chunkArray_flatten, hqueue]
        exact hnb)
      hw hab
    obtain ⟨hcanc, hsucc, hfail, hflist, T, hdb, hTsig⟩ := hrun
    rw [importFilesChunked, if_neg hc]
    refine ⟨?_, ?_, ?_, ?_⟩
    · show (importRun env candidates chunkSize).1.succeeded = _
      rw [importRun, hsucc, chunkArray_flatten, hqueue]
      simp [initState]
    · show (importRun env candidates chunkSize).1.failed = 0
      rw [importRun, hfail]
      simp [initState]
    · exact hskip
    · show (importRun env candidates chunkSize).1.failures = []
      rw [importRun, hflist]
      simp [initState]

/-- Five concrete candidates with distinct signatures. -/
def cands5 : List Candidate :=
  [{ name := "c1.mp3", size := 1, lastModified := 1, sourcePath := none,
     signature := "s1", hasHandle := false },
   { name := "c2.mp3", size := 2, lastModified := 2, sourcePath := none,
     signature := "s2", hasHandle := false },
   { name := "c3.mp3", size := 3, lastModified := 3, sourcePath := none,
     signature := "s3", hasHandle := false },
   { name := "c4.mp3", size := 4, lastModified := 4, sourcePath := none,
     signature := "s4", hasHandle := false },
   { name := "c5.mp3", size := 5, lastModified := 5, sourcePath := none,
     signature := "s5", hasHandle := false }]

/-- Environment in which metadata extraction throws for exactly one of the
five candidates (`c3.mp3`) and everything else succeeds. -/
def envOneThrow : ImportEnv :=
  { envOk with extractThrows := fun c => c.name == "c3.mp3" }

/-- Counterexample to C4 as stated: with extraction throwing for 1 of 5
files the code imports all 5 (the throw is downgraded to fallback
metadata), so the result is not `imported = 4, failed = 1` and the failure
list does not contain the file's name. -/
theorem extraction_throw_claim_false :
    (importFilesChunked envOneThrow cands5 100).1.imported = 5 ∧
      (importFilesChunked envOneThrow cands5 100).1.failed = 0 ∧
      (importFilesChunked envOneThrow cands5 100).2.failures = [] ∧
      ¬((importFilesChunked envOneThrow cands5 100).1.imported = 4 ∧
        (importFilesChunked envOneThrow cands5 100).1.failed = 1) := by
  decide

/-- Witness for the amended C4 at the concrete 5-file input. -/
theorem extraction_throw_still_imports_witness :
    (importFilesChunked envOneThrow cands5 100).1.imported = cands5.length ∧
      (importFilesChunked envOneThrow cands5 100).1.failed = 0 :=
  ⟨(extraction_throw_still_imports envOneThrow cands5 100 (by decide)
      (fun _ => rfl) (fun _ => rfl) (by decide) (by decide)).1,
   (extraction_throw_still_imports envOneThrow cands5 100 (by decide)
      (fun _ => rfl) (fun _ => rfl) (by decide) (by decide)).2.1⟩

theorem dedupQueue_subset :
    ∀ (sigs : List String) (cs : List Candidate),
      ∀ x ∈ (dedupQueue sigs cs).2.1, x ∈ cs
  | _, [], x, hx => by simp [dedupQueue] at hx
  | sigs, c :: cs, x, hx => by
    rw [dedupQueue] at hx
    by_cases h : c.signature ∈ sigs
    · rw [if_pos h] at hx
      simp only at hx
      exact List.mem_cons_of_mem c (dedupQueue_subset sigs cs x hx)
    · rw [if_neg h] at hx
      simp only at hx
      rcases List.mem_cons.mp hx with rfl | hx'
      · exact List.mem_cons_self x cs
      · exact List.mem_cons_of_mem c
          (dedupQueue_subset (c.signature :: sigs) cs x hx')

theorem dedupQueue_all_skip :
    ∀ (sigs : List String) (cs : List Candidate),
      (∀ c ∈ cs, c.signature ∈ sigs) →
      (dedupQueue sigs cs).2.1 = [] ∧ (dedupQueue sigs cs).2.2 = cs.length
  | _, [], _ => ⟨rfl, rfl⟩
  | sigs, c :: cs, h => by
    rw [dedupQueue, if_pos (h c (by simp))]
    have ih := dedupQueue_all_skip sigs cs (fun x hx => h x (by simp [hx]))
    exact ⟨by simp [ih.1], by simp [ih.2]⟩

theorem dedupQueue_mem_sig :
    ∀ (sigs : List String) (cs : List Candidate), ∀ c ∈ cs,
      c.signature ∈ sigs ∨
        c.signature ∈ (dedupQueue sigs cs).2.1.map Candidate.signature
  | _, [], c, hc => by simp at hc
  | sigs, c0 :: cs, c, hc => by
    rw [dedupQueue]
    by_cases h : c0.signature ∈ sigs
    · rw [if_pos h]
      simp only
      rcases List.mem_cons.mp hc with rfl | hc'
      · exact Or.inl h
      · exact dedupQueue_mem_sig sigs cs c hc'
    · rw [if_neg h]
      simp only
      rcases List.mem_cons.mp hc with rfl | hc'
      · right
        simp
      · rcases dedupQueue_mem_sig (c0.signature :: sigs) cs c hc' with hin | hin
        · rcases List.mem_cons.mp hin with heq | hin'
          · right
            simp [heq]
          · exact Or.inl hin'
        · right
          simp [hin]

theorem dedupQueue_nodup :
    ∀ (sigs : List String) (cs : List Candidate),
      ((dedupQueue sigs cs).2.1.map Candidate.signature).Nodup ∧
        ∀ s ∈ (dedupQueue sigs cs).2.1.map Candidate.signature, s ∉ sigs
  | _, [] => ⟨by simp [dedupQueue], by simp [dedupQueue]⟩
  | sigs, c :: cs => by
    rw [dedupQueue]
    by_cases h : c.signature ∈ sigs
    · rw [if_pos h]
      simpa using dedupQueue_nodup sigs cs
    · rw [if_neg h]
      have ih := dedupQueue_nodup (c.signature :: sigs) cs
      simp only
      constructor
      · rw [List.map_cons, List.nodup_cons]
        refine ⟨fun hmem => ?_, ih.1⟩
        have := ih.2 _ hmem
        simp at this
      · intro s hs
        rw [List.map_cons] at hs
        rcases List.mem_cons.mp hs with rfl | hmem
        · exact h
        · have := ih.2 s hmem
          simp at this
          exact this.2

/-- The environment of a second import run over the same candidates,
after the first run's writes have landed in the track store. -/
def rerunEnv (env : ImportEnv) (candidates : List Candidate)
    (chunkSize : Int) : ImportEnv :=
  { env with library := (importFilesChunked env candidates chunkSize).2.db }

/-- C2 (amended): when the first run completes with all chunk writes
succeeding, no cancellation, no per-file mapper failures, and candidates
carrying nonempty signatures, re-importing the same candidate list yields
`imported = 0` and `skipped = total`: every signature is in the library
after the first run.  Likewise, within one batch the deduplicated queue
never carries two candidates with the same signature, and everything not
queued is counted as skipped. -/
theorem import_idempotent (env : ImportEnv) (candidates : List Candidate)
    (chunkSize : Int)
    (hnb : ∀ c ∈ candidates, env.buildThrows c = false)
    (hw : ∀ j, env.writeFails j 0 = false)
    (hab : ∀ j, env.abortedAt j = false)
    (hsig : ∀ c ∈ candidates, c.signature ≠ "") :
    (importFilesChunked (rerunEnv env candidates chunkSize) candidates
        chunkSize).1.imported = 0 ∧
      (importFilesChunked (rerunEnv env candidates chunkSize) candidates
        chunkSize).1.skipped = candidates.length ∧
      (importFilesChunked (rerunEnv env candidates chunkSize) candidates
        chunkSize).1.failed = 0 ∧
      (∀ (sigs : List String) (cs : List Candidate),
        ((dedupQueue sigs cs).2.1.map Candidate.signature).Nodup ∧
          (dedupQueue sigs cs).2.2 + (dedupQueue sigs cs).2.1.length =
            cs.length) := by
  have hbatch : ∀ (sigs : List String) (cs : List Candidate),
      ((dedupQueue sigs cs).2.1.map Candidate.signature).Nodup ∧
        (dedupQueue sigs cs).2.2 + (dedupQueue sigs cs).2.1.length =
          cs.length :=
    fun sigs cs => ⟨(dedupQueue_nodup sigs cs).1, dedupQueue_partition sigs cs⟩
  by_cases hc : candidates = []
  · subst hc
    exact ⟨rfl, rfl, rfl, hbatch⟩
  · -- first run: all queued candidates are persisted
    have hrun1 := runChunks_all_ok env
      (chunkArray (importQueue env candidates) chunkSize) 0
      (initState env (importSkipped env candidates))
      (by
        rw [chunkArray_flatten]
        intro c hcq
        exact hnb c (dedupQueue_subset (librarySignatures env) candidates c hcq))
      hw hab
    obtain ⟨_, _, _, _, T, hdb, hTsig⟩ := hrun1
    rw [chunkArray_flatten] at hTsig
    have hdb1 : (importFilesChunked env candidates chunkSize).2.db =
        env.library ++ T := by
      rw [importFilesChunked, if_neg hc]
      show (importRun env candidates chunkSize).1.db = _
      rw [importRun, hdb]
      simp [initState]
    -- every candidate signature is known to the second run
    have hknown : ∀ c ∈ candidates, c.signature ∈
        librarySignatures (rerunEnv env candidates chunkSize) := by
      intro c hcmem
      have hlib2 : librarySignatures (rerunEnv env candidates chunkSize) =
          librarySignatures env ++ T.filterMap getTrackSignature := by
        show (rerunEnv env candidates chunkSize).library.filterMap
            getTrackSignature = _
        rw [rerunEnv]
        simp only
        rw [hdb1, List.filterMap_append]
        rfl
      rw [hlib2]
      rcases dedupQueue_mem_sig (librarySignatures env) candidates c hcmem with
        hin | hin
      · exact List.mem_append_left _ hin
      · refine List.mem_append_right _ ?_
        have hin' : c.signature ∈
            (importQueue env candidates).map Candidate.signature := hin
        rw [← hTsig] at hin'
        obtain ⟨t, htmem, htsig⟩ := List.mem_map.mp hin'
        refine List.mem_filterMap.mpr ⟨t, htmem, ?_⟩
        rw [getTrackSignature, if_pos (by
          rw [htsig]
          exact hsig c hcmem), htsig]
    have hskip2 := dedupQueue_all_skip
      (librarySignatures (rerunEnv env candidates chunkSize)) candidates hknown
    have hqueue2 : importQueue (rerunEnv env candidates chunkSize) candidates =
        [] := hskip2.1
    have hrun2 := runChunks_all_ok (rerunEnv env candidates chunkSize)
      (chunkArray (importQueue (rerunEnv env candidates chunkSize) candidates)
        chunkSize) 0
      (initState (rerunEnv env candidates chunkSize)
        (importSkipped (rerunEnv env candidates chunkSize) candidates))
      (by
        rw [chunkArray_flatten, hqueue2]
        intro c hcq
        simp at hcq)
      hw hab
    obtain ⟨_, hsucc2, hfail2, _, _, _, _⟩ := hrun2
    rw [importFilesChunked, if_neg hc]
    refine ⟨?_, ?_, ?_, hbatch⟩
    · show (importRun (rerunEnv env candidates chunkSize) candidates
        chunkSize).1.succeeded = 0
      rw [importRun, hsucc2, chunkArray_flatten, hqueue2]
      simp [initState]
    · exact hskip2.2
    · show (importRun (rerunEnv env candidates chunkSize) candidates
        chunkSize).1.failed = 0
      rw [importRun, hfail2]
      simp [initState]

/-- Environment in which the per-candidate mapper always throws past the
extraction fallback (e.g. `crypto.randomUUID` unavailable). -/
def envBadBuild : ImportEnv :=
  { envOk with buildThrows := fun _ => true, buildReason := fun _ => "boom" }

/-- Counterexample to C2 as stated: if the first run records a per-file
failure, the file is never persisted, so the second run does not skip it —
`skipped = 0 ≠ total = 1` even though every chunk write "succeeded"
(no write was ever attempted, none failed). -/
theorem import_idempotent_claim_false :
    (importFilesChunked (rerunEnv envBadBuild [candA] 100) [candA]
        100).1.imported = 0 ∧
      (importFilesChunked (rerunEnv envBadBuild [candA] 100) [candA]
        100).1.skipped = 0 ∧
      ([candA] : List Candidate).length = 1 ∧
      ¬((importFilesChunked (rerunEnv envBadBuild [candA] 100) [candA]
          100).1.imported = 0 ∧
        (importFilesChunked (rerunEnv envBadBuild [candA] 100) [candA]
          100).1.skipped = ([candA] : List Candidate).length) := by
  decide

/-- Witness for the amended C2 at a concrete input. -/
theorem import_idempotent_witness :
    (importFilesChunked (rerunEnv envOk [candA] 100) [candA]
        100).1.imported = 0 ∧
      (importFilesChunked (rerunEnv envOk [candA] 100) [candA]
        100).1.skipped = ([candA] : List Candidate).length :=
  ⟨(import_idempotent envOk [candA] 100 (by decide) (fun _ => rfl)
      (fun _ => rfl) (by decide)).1,
   (import_idempotent envOk [candA] 100 (by decide) (fun _ => rfl)
      (fun _ => rfl) (by decide)).2.1⟩

/-! ## Playback engine flags and wake lock
(src/hooks/useAudioEngine.ts, src/lib/wakeLock.ts)

The engine's externally observable flags are modelled as a record; each
entry point is a state transition whose interaction with the platform
(whether `element.play()` resolved, the element snapshot that
`syncFromAudioElement` reads afterwards, whether the wake-lock request is
granted) is carried as operation parameters.  `requestWakeLock` sets the
module-level sentinel on success and leaves it unchanged when the request
throws; `releaseWakeLock` always clears it. -/

/-- The element snapshot read by `syncFromAudioElement`. -/
structure AudioSnapshot where
  paused : Bool
  hasSrc : Bool
  readyState : Nat
  hasError : Bool
deriving DecidableEq, Repr

/-- The store-held playback flags plus the wake-lock sentinel. -/
structure EngineState where
  lastKnownShouldBePlaying : Bool
  isPlaying : Bool
  playbackNotice : Option String
  wakeLockHeld : Bool
deriving DecidableEq, Repr

/-- Modelled from the spec: the store action `reconcilePlaybackState`
fed by `syncFromAudioElement` (the flags store module itself is not among
the provided sources; per the spec it re-reads the actual output state
and records whether the output is actually playing). -/
def reconcileSnapshot (st : EngineState) (snap : AudioSnapshot) :
    EngineState :=
  { st with isPlaying := !snap.paused && snap.hasSrc && !snap.hasError }

/-- `syncFromAudioElement`: feed the snapshot to the store reconcile
action, then clear the playing flag when the element has no source, no
data yet, or an error. -/
def syncFromAudioElement (st : EngineState) (snap : AudioSnapshot) :
    EngineState :=
  let st' := reconcileSnapshot st snap
  if !snap.hasSrc || snap.readyState == 0 || snap.hasError then
    { st' with isPlaying := false }
  else st'

def blockedNotice : String := "Playback paused by iOS. Tap Play to continue."

def interruptedNotice : String := "Playback interrupted. Tap Play to try again."

/-- Engine entry points relevant to the playback flags and wake lock:
`play()`, `pause()` and the audio element `error` listener.  `started` is
the result of `safePlay` (whether `element.play()` resolved), `snap` the
element snapshot read right afterwards, `grant` whether the wake-lock
request succeeds. -/
inductive EngineOp where
  | play (started : Bool) (snap : AudioSnapshot) (grant : Bool)
  | pause (snap : AudioSnapshot)
  | errorEvent (snap : AudioSnapshot)
deriving DecidableEq, Repr

/-- One engine entry point as a transition on the observable flags. -/
def stepEngine (st : EngineState) : EngineOp → EngineState
  | .play started snap grant =>
    let st1 := { st with lastKnownShouldBePlaying := true,
                         playbackNotice := none }
    let st2 := syncFromAudioElement st1 snap
    if !started || snap.paused then
      { st2 with lastKnownShouldBePlaying := false, isPlaying := false,
                 playbackNotice := some blockedNotice, wakeLockHeld := false }
    else
      { st2 with wakeLockHeld := if grant then true else st2.wakeLockHeld }
  | .pause snap =>
    let st1 := { st with lastKnownShouldBePlaying := false }
    let st2 := syncFromAudioElement st1 snap
    { st2 with isPlaying := false, playbackNotice := none,
               wakeLockHeld := false }
  | .errorEvent snap =>
    let st1 := { st with lastKnownShouldBePlaying := false,
                         isPlaying := false,
                         playbackNotice := some interruptedNotice }
    syncFromAudioElement st1 snap

/-- C8: when the platform refuses to start playback — `element.play()`
rejects, or the element is still paused in the snapshot read right after —
`play()` ends blocked-by-platform: `lastKnownShouldBePlaying` is false,
the playing flag is false, and the user-visible playback notice is set. -/
theorem play_refusal_blocked (st : EngineState) (snap : AudioSnapshot)
    (started grant : Bool) :
    ((stepEngine st (.play false snap grant)).lastKnownShouldBePlaying =
        false ∧
      (stepEngine st (.play false snap grant)).isPlaying = false ∧
      (stepEngine st (.play false snap grant)).playbackNotice =
        some blockedNotice) ∧
    ((stepEngine st
        (.play started { snap with paused := true } grant)).lastKnownShouldBePlaying =
        false ∧
      (stepEngine st
        (.play started { snap with paused := true } grant)).isPlaying =
        false ∧
      (stepEngine st
        (.play started { snap with paused := true } grant)).playbackNotice =
        some blockedNotice) := by
  constructor <;> refine ⟨?_, ?_, ?_⟩ <;>
    simp [stepEngine, syncFromAudioElement, reconcileSnapshot]

/-- C9 (amended): the wake lock is released on `pause()` and on a refused
`play()`; the audio `error` listener clears the playing flag but does not
release the wake lock, so a playback stop through the error path leaves
the lock held until the next pause. -/
theorem wake_lock_release_points (st : EngineState) (snap : AudioSnapshot)
    (started grant : Bool) :
    (stepEngine st (.pause snap)).wakeLockHeld = false ∧
      (stepEngine st (.play false snap grant)).wakeLockHeld = false ∧
      (stepEngine st
        (.play started { snap with paused := true } grant)).wakeLockHeld =
        false ∧
      (stepEngine st (.errorEvent snap)).wakeLockHeld = st.wakeLockHeld := by
  refine ⟨?_, ?_, ?_, ?_⟩ <;>
    simp [stepEngine, syncFromAudioElement, reconcileSnapshot] <;>
    split <;> rfl

/-- Counterexample to C9 as stated: a successful play (lock acquired)
followed by a playback error ends with playback stopped but the wake
lock still held — the error path never releases it. -/
theorem wake_lock_error_leak :
    ((stepEngine
        (stepEngine
          { lastKnownShouldBePlaying := false, isPlaying := false,
            playbackNotice := none, wakeLockHeld := false }
          (.play true
            { paused := false, hasSrc := true, readyState := 4,
              hasError := false } true))
        (.errorEvent
          { paused := true, hasSrc := true, readyState := 4,
            hasError := true })).isPlaying = false) ∧
      ((stepEngine
        (stepEngine
          { lastKnownShouldBePlaying := false, isPlaying := false,
            playbackNotice := none, wakeLockHeld := false }
          (.play true
            { paused := false, hasSrc := true, readyState := 4,
              hasError := false } true))
        (.errorEvent
          { paused := true, hasSrc := true, readyState := 4,
            hasError := true })).wakeLockHeld = true) := by
  decide

/-! ## Shuffle order and queue navigation (src/hooks/useAudioEngine.ts)

The Fisher-Yates loop draws `Math.floor(Math.random() * (i + 1))` at each
step; the random source is an oracle `rand : Nat → Nat` giving the drawn
index for each loop position.  Tracks enter the queue logic only through
`tracks.map(t => t.id)`, so the state carries the id list. -/

inductive RepeatMode where
  | off
  | one
  | all
deriving DecidableEq, Repr

/-- The engine state read by the queue logic: library ids, shuffle flag,
`shuffleOrderRef.current`, current track and repeat mode. -/
structure NavState where
  tracks : List String
  shuffle : Bool
  shuffleOrder : List String
  currentTrackId : Option String
  repeatMode : RepeatMode
deriving DecidableEq, Repr

/-- `[ids[i], ids[j]] = [ids[j], ids[i]]` (in-bounds only; out-of-range
reads leave the list unchanged, mirroring that the JS loop only produces
in-range indices). -/
def listSwap (l : List α) (i j : Nat) : List α :=
  match l[i]?, l[j]? with
  | some x, some y => (l.set i y).set j x
  | _, _ => l

/-- The Fisher-Yates loop body for `i = n, n-1, ..., 1`. -/
def fyGo (rand : Nat → Nat) : Nat → List α → List α
  | 0, l => l
  | i + 1, l => fyGo rand i (listSwap l (i + 1) (rand (i + 1)))

/-- The shuffle-order computation of the `[shuffle, tracks]` effect:
`for (let i = ids.length - 1; i > 0; i -= 1) swap(i, rand(i))`. -/
def fisherYates (rand : Nat → Nat) (ids : List α) : List α :=
  fyGo rand (ids.length - 1) ids

theorem cons_set_perm :
    ∀ (xs : List α) (m : Nat) (x y : α), xs[m]? = some y →
      (y :: xs.set m x).Perm (x :: xs)
  | a :: as, 0, x, y, h => by
    rw [List.getElem?_cons_zero] at h
    injection h with h
    subst h
    exact List.Perm.swap x a as
  | a :: as, m + 1, x, y, h => by
    rw [List.getElem?_cons_succ] at h
    have ih := cons_set_perm as m x y h
    have s1 : (y :: a :: as.set m x).Perm (a :: y :: as.set m x) :=
      List.Perm.swap a y (as.set m x)
    have s2 : (a :: y :: as.set m x).Perm (a :: x :: as) := ih.cons a
    have s3 : (a :: x :: as).Perm (x :: a :: as) := List.Perm.swap x a as
    exact (s1.trans s2).trans s3

theorem set_set_perm :
    ∀ (l : List α) (i j : Nat) (x y : α), l[i]? = some x → l[j]? = some y →
      ((l.set i y).set j x).Perm l
  | [], _, _, _, _, hi, _ => by simp at hi
  | a :: as, 0, 0, x, y, hi, hj => by
    rw [List.getElem?_cons_zero] at hi hj
    injection hi with hi
    injection hj with hj
    subst hi
    subst hj
    exact List.Perm.refl _
  | a :: as, 0, m + 1, x, y, hi, hj => by
    rw [List.getElem?_cons_zero] at hi
    injection hi with hi
    subst hi
    rw [List.getElem?_cons_succ] at hj
    exact cons_set_perm as m a y hj
  | a :: as, n + 1, 0, x, y, hi, hj => by
    rw [List.getElem?_cons_succ] at hi
    rw [List.getElem?_cons_zero] at hj
    injection hj with hj
    subst hj
    exact cons_set_perm as n a x hi
  | a :: as, n + 1, m + 1, x, y, hi, hj => by
    rw [List.getElem?_cons_succ] at hi hj
    exact (set_set_perm as n m x y hi hj).cons a

theorem listSwap_perm (l : List α) (i j : Nat) : (listSwap l i j).Perm l := by
  unfold listSwap
  split
  · next x y hx hy => exact set_set_perm l i j x y hx hy
  · exact List.Perm.refl l

theorem fyGo_perm (rand : Nat → Nat) :
    ∀ (n : Nat) (l : List α), (fyGo rand n l).Perm l
  | 0, l => List.Perm.refl l
  | n + 1, l =>
    (fyGo_perm rand n (listSwap l (n + 1) (rand (n + 1)))).trans
      (listSwap_perm l (n + 1) (rand (n + 1)))

theorem fisherYates_perm (rand : Nat → Nat) (ids : List α) :
    (fisherYates rand ids).Perm ids :=
  fyGo_perm rand (ids.length - 1) ids

/-- `orderedTrackIds`: the shuffled order when shuffle is on and an order
exists, the library order otherwise. -/
def orderedTrackIds (s : NavState) : List String :=
  if s.shuffle then
    if s.shuffleOrder.length ≠ 0 then s.shuffleOrder else s.tracks
  else s.tracks

/-- `playNext`: advance along `orderedTrackIds`, wrapping to the first id
only in repeat-all mode (JS truthiness: a missing or empty next id falls
through to the wrap check). -/
def playNext (s : NavState) : NavState :=
  match s.currentTrackId with
  | none => s
  | some cid =>
    let ord := orderedTrackIds s
    match ord.indexOf? cid with
    | none => s
    | some idx =>
      let nextId := (ord[idx + 1]?).getD ""
      if nextId ≠ "" then { s with currentTrackId := some nextId }
      else if s.repeatMode = RepeatMode.all ∧ ord.length ≠ 0 then
        { s with currentTrackId := ord[0]? }
      else s

/-- `playPrev`: step backwards, wrapping to the last id only in
repeat-all mode. -/
def playPrev (s : NavState) : NavState :=
  match s.currentTrackId with
  | none => s
  | some cid =>
    let ord := orderedTrackIds s
    match ord.indexOf? cid with
    | none => s
    | some idx =>
      let prevId := if idx = 0 then "" else (ord[idx - 1]?).getD ""
      if prevId ≠ "" then { s with currentTrackId := some prevId }
      else if s.repeatMode = RepeatMode.all ∧ ord.length ≠ 0 then
        { s with currentTrackId := ord[ord.length - 1]? }
      else s

/-- `toggleShuffle` together with the `[shuffle, tracks]` effect: turning
shuffle on recomputes the order once; turning it off leaves the stale
order in the ref (unused while shuffle is off). -/
def toggleShuffle (rand : Nat → Nat) (s : NavState) : NavState :=
  let s' := { s with shuffle := !s.shuffle }
  if s'.shuffle then { s' with shuffleOrder := fisherYates rand s'.tracks }
  else s'

/-- A track-set change together with the `[shuffle, tracks]` effect. -/
def setTracksNav (rand : Nat → Nat) (tracks : List String) (s : NavState) :
    NavState :=
  let s' := { s with tracks := tracks }
  if s'.shuffle then { s' with shuffleOrder := fisherYates rand tracks }
  else s'

/-- An arbitrary sequence of `next()` (true) / `prev()` (false) calls. -/
def applyNav : List Bool → NavState → NavState
  | [], s => s
  | b :: bs, s => applyNav bs (if b then playNext s else playPrev s)

theorem playNext_preserves (s : NavState) :
    (playNext s).tracks = s.tracks ∧ (playNext s).shuffle = s.shuffle ∧
      (playNext s).shuffleOrder = s.shuffleOrder := by
  simp only [playNext]
  repeat' split
  all_goals exact ⟨rfl, rfl, rfl⟩

theorem playPrev_preserves (s : NavState) :
    (playPrev s).tracks = s.tracks ∧ (playPrev s).shuffle = s.shuffle ∧
      (playPrev s).shuffleOrder = s.shuffleOrder := by
  simp only [playPrev]
  repeat' split
  all_goals exact ⟨rfl, rfl, rfl⟩

theorem applyNav_preserves :
    ∀ (ops : List Bool) (s : NavState),
      (applyNav ops s).tracks = s.tracks ∧
        (applyNav ops s).shuffle = s.shuffle ∧
        (applyNav ops s).shuffleOrder = s.shuffleOrder
  | [], _ => ⟨rfl, rfl, rfl⟩
  | b :: bs, s => by
    rw [applyNav]
    cases b with
    | false =>
      have ih := applyNav_preserves bs (playPrev s)
      have hp := playPrev_preserves s
      simp only [Bool.false_eq_true, if_false]
      exact ⟨ih.1.trans hp.1, ih.2.1.trans hp.2.1, ih.2.2.trans hp.2.2⟩
    | true =>
      have ih := applyNav_preserves bs (playNext s)
      have hp := playNext_preserves s
      simp only [if_true]
      exact ⟨ih.1.trans hp.1, ih.2.1.trans hp.2.1, ih.2.2.trans hp.2.2⟩

/-- C7: enabling shuffle stores a permutation of the current track ids
(with each id exactly once when the ids are distinct); any sequence of
`next()`/`prev()` calls leaves the tracks, the shuffle flag and the
stored shuffle order untouched; and the order is the Fisher-Yates
recomputation exactly when shuffle is toggled on or the track set changes
with shuffle on. -/
theorem shuffled_queue_stable :
    (∀ (rand : Nat → Nat) (ids : List String),
      (fisherYates rand ids).Perm ids) ∧
    (∀ (rand : Nat → Nat) (ids : List String), ids.Nodup →
      (fisherYates rand ids).Nodup ∧
        ∀ x, x ∈ fisherYates rand ids ↔ x ∈ ids) ∧
    (∀ (ops : List Bool) (s : NavState),
      (applyNav ops s).shuffleOrder = s.shuffleOrder ∧
        (applyNav ops s).tracks = s.tracks ∧
        (applyNav ops s).shuffle = s.shuffle) ∧
    (∀ (rand : Nat → Nat) (s : NavState), s.shuffle = false →
      (toggleShuffle rand s).shuffleOrder = fisherYates rand s.tracks) ∧
    (∀ (rand : Nat → Nat) (tracks : List String) (s : NavState),
      s.shuffle = true →
      (setTracksNav rand tracks s).shuffleOrder = fisherYates rand tracks) := by
  refine ⟨fisherYates_perm, ?_, ?_, ?_, ?_⟩
  · intro rand ids h
    refine ⟨((fisherYates_perm rand ids).nodup_iff).mpr h, ?_⟩
    intro x
    exact (fisherYates_perm rand ids).mem_iff
  · intro ops s
    have h := applyNav_preserves ops s
    exact ⟨h.2.2, h.1, h.2.1⟩
  · intro rand s h
    rw [toggleShuffle]
    simp [h]
  · intro rand tracks s h
    rw [setTracksNav]
    simp [h]

/-- Witness for C7 at a concrete input. -/
theorem shuffled_queue_stable_witness :
    (fisherYates (fun _ => 0) ["a", "b", "c"]).Perm ["a", "b", "c"] ∧
      (fisherYates (fun _ => 0) ["a", "b", "c"]).Nodup :=
  ⟨shuffled_queue_stable.1 (fun _ => 0) ["a", "b", "c"],
   (shuffled_queue_stable.2.1 (fun _ => 0) ["a", "b", "c"] (by decide)).1⟩

end Asound
